import Mathlib

/-!
Verification of the conversational turn orchestrator of the voice_bot
repository: a shallow embedding of the phase state machine, transcript
log updates, reply-generation fallback, silence detection, visual
feedback freezing, and the audio sample conversions, together with
proofs of the specified properties.
-/

namespace VoiceBot

/-! ### Phase and transcript model (src/components/VoiceInterface.tsx) -/

/-- The orchestrator phase, `type Phase = 'idle' | 'listening' | 'processing' | 'speaking'`. -/
inductive Phase where
  | idle
  | listening
  | processing
  | speaking
deriving DecidableEq, Repr

/-- One entry of the transcript log: `{ role: string; text: string }`. -/
structure Entry where
  role : String
  text : String
deriving DecidableEq, Repr

/-- The transcript updater inside `handleTranscript` (VoiceInterface.tsx:104-110):
if the last entry is a user entry it is replaced in place, otherwise a new user
entry is appended; interim text gets a trailing ellipsis. -/
def updateTranscripts (prev : List Entry) (text : String) (isFinal : Bool) : List Entry :=
  let entry : Entry := ⟨"user", if isFinal then text else text ++ " …"⟩
  match prev.getLast? with
  | some last => if last.role = "user" then prev.dropLast ++ [entry] else prev ++ [entry]
  | none => prev ++ [entry]

/-- Orchestrator state visible to `handleTranscript`: current phase and the log. -/
structure OrchState where
  phase : Phase
  transcripts : List Entry
deriving DecidableEq, Repr

/-- The synchronous part of `handleTranscript` (VoiceInterface.tsx:97-121): the
log is updated unconditionally, then the phase is set to `listening` for an
interim event and to `processing` for a final event.  The source contains no
check of the current phase. -/
def handleTranscriptStep (s : OrchState) (text : String) (isFinal : Bool) : OrchState :=
  let ts := updateTranscripts s.transcripts text isFinal
  if isFinal then { phase := Phase.processing, transcripts := ts }
  else { phase := Phase.listening, transcripts := ts }

/-! ### Reply generation with fallback (src/lib/text-generation.ts) -/

/-- `empatheticResponsesEN`: the English canned-response table. -/
def empatheticResponsesEN : List String :=
  ["I hear you. That sounds tough.",
   "I understand. That must be difficult.",
   "You're not alone in feeling this way.",
   "That's a challenging situation. I'm here to listen.",
   "Thank you for sharing. Your feelings matter.",
   "It's okay to feel this way. You'll get through this.",
   "I'm sorry you're going through this."]

/-- `empatheticResponsesCN`: the Chinese canned-response table. -/
def empatheticResponsesCN : List String :=
  ["我理解。那一定很难。",
   "你不是一个人。我在这里。",
   "感谢你的分享。你的感受很重要。",
   "这是一个挑战。你会度过这一关。",
   "我很遗憾你要经历这个。",
   "那听起来很困难。坚持下去。",
   "你很勇敢。继续前进。"]

/-- A character matched by the regex `[一-鿿㐀-䶿]`. -/
def isCJKChar (c : Char) : Bool :=
  decide (0x4E00 ≤ c.toNat ∧ c.toNat ≤ 0x9FFF) || decide (0x3400 ≤ c.toNat ∧ c.toNat ≤ 0x4DBF)

/-- `text.match(chineseCharRegex).length`: how many characters of the string
fall in the two CJK ranges (each such character is a single UTF-16 unit). -/
def chineseCharCount (s : String) : ℕ :=
  (s.data.filter isCJKChar).length

/-- JavaScript's `text.length`: the number of UTF-16 code units (astral
characters count twice). -/
def utf16Length (s : String) : ℕ :=
  s.data.foldl (fun n c => n + if 0x10000 ≤ c.toNat then 2 else 1) 0

/-- `detectLanguage` (text-generation.ts:56-66): Chinese when the regex matched
at all and the matches make up more than 30% of `text.length`. -/
def detectLanguage (s : String) : String :=
  if chineseCharCount s ≠ 0 ∧ (3 : ℚ) / 10 < (chineseCharCount s : ℚ) / (utf16Length s : ℚ)
  then "zh-CN" else "en-US"

/-- The language-matched canned-response table used by the fallback path. -/
def fallbackTable (prompt : String) : List String :=
  if detectLanguage prompt = "zh-CN" then empatheticResponsesCN else empatheticResponsesEN

/-- The catch branch of `generateReply` (text-generation.ts:97-104):
`responses[Math.floor(Math.random() * responses.length)]` with `rand` standing
for the `Math.random()` draw. -/
def fallbackResponse (prompt : String) (rand : ℚ) : String :=
  let responses := fallbackTable prompt
  let randomIndex := (⌊rand * (responses.length : ℚ)⌋).toNat
  responses.getD randomIndex ""

/-- Outcome of the `/api/generate-reply` fetch: HTTP ok flag and body text. -/
structure FetchResponse where
  ok : Bool
  text : String

/-- `generateReply` (text-generation.ts:68-105): try the provider route; if the
call errors (`Except.error`) or returns a non-ok response, the thrown error is
caught and a canned response in the detected language is returned instead. -/
def generateReply (fetchResult : Except String FetchResponse) (prompt : String) (rand : ℚ) : String :=
  match fetchResult with
  | Except.error _ => fallbackResponse prompt rand
  | Except.ok r => if r.ok then r.text else fallbackResponse prompt rand

/-- Voice selection in `generateAndSpeak` (VoiceInterface.tsx:142-143). -/
def voiceNameFor (reply : String) : String :=
  if detectLanguage reply = "zh-CN" then "zh-CN-YunyangNeural" else "en-US-JennyNeural"

/-! ### Silence detection (src/lib/audio-processor.ts, `startSilenceDetection`) -/

/-- Mutable state of the silence-detection interval: the "speech observed"
latch, the time of the last loud sample (`lastSoundTime`, initialised to the
start time), and whether the end-of-turn callback has fired (after which the
interval is cleared and nothing further happens). -/
structure SilenceState where
  hasDetectedSound : Bool
  lastSoundTime : ℕ
  fired : Bool
deriving DecidableEq, Repr

/-- One tick of the 150 ms interval (audio-processor.ts:194-210).  A poll is a
pair `(now, intensity)` of the current time in ms and the sampled intensity.
Above the threshold: set the latch and reset `lastSoundTime`; below it, with
the latch set and `now - lastSoundTime >= duration`: stop detection and fire. -/
def silenceStep (threshold : ℚ) (duration : ℕ) (s : SilenceState) (p : ℕ × ℚ) : SilenceState :=
  if s.fired then s
  else if threshold < p.2 then ⟨true, p.1, false⟩
  else if s.hasDetectedSound = true ∧ duration ≤ p.1 - s.lastSoundTime then
    { s with fired := true }
  else s

/-- Run the detector from its `startSilenceDetection` initial state
(`lastSoundTime = Date.now()`, latch cleared) over a sequence of polls. -/
def runSilence (threshold : ℚ) (duration t0 : ℕ) (polls : List (ℕ × ℚ)) : SilenceState :=
  polls.foldl (silenceStep threshold duration) ⟨false, t0, false⟩

/-- The time of the last above-threshold sample in the poll sequence, or the
start time when no sample was loud. -/
def lastLoudTime (threshold : ℚ) (t0 : ℕ) (polls : List (ℕ × ℚ)) : ℕ :=
  polls.foldl (fun acc p => if threshold < p.2 then p.1 else acc) t0

/-- Whether some sample of the sequence exceeded the threshold. -/
def speechLatch (threshold : ℚ) (polls : List (ℕ × ℚ)) : Bool :=
  polls.any (fun p => decide (threshold < p.2))

/-- Declarative firing condition at poll `j`: some sample among the first
`j + 1` polls exceeded the threshold, and at least `duration` ms have elapsed
between the last such sample and poll `j`. -/
def silenceFireCond (threshold : ℚ) (duration t0 : ℕ) (polls : List (ℕ × ℚ)) (j : ℕ) : Prop :=
  j < polls.length
  ∧ speechLatch threshold (polls.take (j + 1)) = true
  ∧ duration ≤ (polls.getD j (0, 0)).1 - lastLoudTime threshold t0 (polls.take (j + 1))

/-! ### Visual feedback freeze (VoiceInterface.tsx:216-235 and 258-261) -/

/-- The feedback-relevant component state: the phase and intensity seen by the
effect, the `brightness`/`bloom` state values, and the three
`lastListening*` refs that freeze the Listening-phase values. -/
structure FeedbackState where
  phase : Phase
  audioIntensity : ℚ
  brightness : ℚ
  bloom : ℚ
  lastListeningAudio : ℚ
  lastListeningBrightness : ℚ
  lastListeningBloom : ℚ
deriving DecidableEq, Repr

/-- Initial values (VoiceInterface.tsx:16-25): brightness and bloom start at
1.0 and the refs are initialised from them, the audio ref from 0. -/
def initialFeedback : FeedbackState :=
  ⟨Phase.idle, 0, 1, 1, 0, 1, 1⟩

/-- One run of the `[phase, audioIntensity]` effect (VoiceInterface.tsx:216-235):
while listening, brightness and bloom are recomputed from the current
intensity (`1.0 + intensity * 2.0` and `1.5 + intensity * 4.5`) and captured
into the refs; in any other phase they are set to the constant subtle glow and
the refs are left untouched. -/
def feedbackTick (s : FeedbackState) (phase : Phase) (intensity : ℚ) : FeedbackState :=
  if phase = Phase.listening then
    let dynamicBloom := 3 / 2 + intensity * (9 / 2)
    let dynamicBrightness := 1 + intensity * 2
    ⟨phase, intensity, dynamicBrightness, dynamicBloom, intensity, dynamicBrightness, dynamicBloom⟩
  else
    { s with phase := phase, audioIntensity := intensity, brightness := 1, bloom := 1 }

/-- Run the effect over a sequence of (phase, intensity) ticks. -/
def runFeedback (ticks : List (Phase × ℚ)) : FeedbackState :=
  ticks.foldl (fun s t => feedbackTick s t.1 t.2) initialFeedback

/-- `effectiveBrightness` (VoiceInterface.tsx:260): frozen ref value while
speaking or processing, live state value otherwise. -/
def effectiveBrightness (s : FeedbackState) : ℚ :=
  if s.phase = Phase.speaking ∨ s.phase = Phase.processing then s.lastListeningBrightness
  else s.brightness

/-- `effectiveBloom` (VoiceInterface.tsx:261). -/
def effectiveBloom (s : FeedbackState) : ℚ :=
  if s.phase = Phase.speaking ∨ s.phase = Phase.processing then s.lastListeningBloom
  else s.bloom

/-- `effectiveAudioIntensity` (VoiceInterface.tsx:259). -/
def effectiveAudioIntensity (s : FeedbackState) : ℚ :=
  if s.phase = Phase.speaking ∨ s.phase = Phase.processing then s.lastListeningAudio
  else s.audioIntensity

/-- The intensity of the last tick whose phase was `listening`, if any. -/
def lastListeningIntensity (ticks : List (Phase × ℚ)) : Option ℚ :=
  ((ticks.filter fun t => decide (t.1 = Phase.listening)).getLast?).map Prod.snd

/-! ### Turn sequencing (`generateAndSpeak`, VoiceInterface.tsx:128-181) -/

/-- The observable actions performed by one `generateAndSpeak` turn, in
program order. -/
inductive TurnAction where
  | generate
  | appendAssistant (text : String)
  | setPhase (p : Phase)
  | synthesize (voiceName : String) (text : String)
  | annotateAudioFailed (text : String)
  | disconnect
  | scheduleReconnect (delayMs : ℕ)
deriving DecidableEq, Repr

/-- The action trace of `generateAndSpeak` as a function of the generation and
synthesis outcomes.  On generation success: append the assistant entry, set
phase `speaking`, synthesize with the language-selected voice, and on
synthesis failure annotate the entry; on generation failure: append the
apologetic entry.  The `finally` block always sets phase `idle`, disconnects
the recognition client, and schedules `connect()` 500 ms later. -/
def generateAndSpeakTrace (genResult : Except String String)
    (ttsResult : Except String Unit) : List TurnAction :=
  (match genResult with
   | Except.ok reply =>
     [TurnAction.generate, TurnAction.appendAssistant reply,
      TurnAction.setPhase Phase.speaking,
      TurnAction.synthesize (voiceNameFor reply) reply]
     ++ (match ttsResult with
         | Except.ok _ => []
         | Except.error _ => [TurnAction.annotateAudioFailed (reply ++ " (audio failed)")])
   | Except.error msg =>
     [TurnAction.generate,
      TurnAction.appendAssistant ("Sorry, I ran into an issue: " ++ msg)])
  ++ [TurnAction.setPhase Phase.idle, TurnAction.disconnect, TurnAction.scheduleReconnect 500]

/-- `a` occurs strictly before `b` in the trace `l`. -/
def precedesIn (l : List TurnAction) (a b : TurnAction) : Prop :=
  ∃ n m, n < m ∧ l.get? n = some a ∧ l.get? m = some b

/-! ### PCM16 / Float32 conversion (audio-processor.ts:56-70 and the Deepgram
client's `float32ToPCM16`) -/

/-- The decode loop of `playAudio`: `float32Array[i] = int16Array[i] / 32768.0`. -/
def pcm16ToFloat32 (samples : List ℤ) : List ℚ :=
  samples.map fun v : ℤ => (v : ℚ) / 32768

/-- `Math.max(-1, Math.min(1, f))`. -/
def clampUnit (f : ℚ) : ℚ :=
  max (-1) (min 1 f)

/-- ECMAScript ToInt16, applied on assignment into an `Int16Array`: truncate
toward zero, reduce modulo 2^16, reinterpret as a signed 16-bit value. -/
def toInt16 (q : ℚ) : ℤ :=
  let i : ℤ := if q < 0 then ⌈q⌉ else ⌊q⌋
  let m := i % 65536
  if 32768 ≤ m then m - 65536 else m

/-- One sample of `float32ToPCM16`: `s = Math.max(-1, Math.min(1, x));
pcm16[i] = s < 0 ? s * 0x8000 : s * 0x7fff`. -/
def pcm16Sample (f : ℚ) : ℤ :=
  let s := clampUnit f
  if s < 0 then toInt16 (s * 32768) else toInt16 (s * 32767)

/-- The encode loop `float32ToPCM16` (Deepgram realtime client, lines 159-166). -/
def float32ToPCM16 (samples : List ℚ) : List ℤ :=
  samples.map pcm16Sample

/-! ### Audio intensity (audio-processor.ts:30-42) -/

/-- The loop `sum += dataArray[i] * dataArray[i]` over the spectral frame. -/
def sumSquares (frame : List ℕ) : ℕ :=
  frame.foldl (fun acc b => acc + b * b) 0

/-- `Math.sqrt(sum / dataArray.length)`: root mean square of the frame. -/
noncomputable def rmsOfFrame (frame : List ℕ) : ℝ :=
  Real.sqrt ((sumSquares frame : ℝ) / (frame.length : ℝ))

/-- `getAudioIntensity`: `Math.min(rms / 128, 1)`. -/
noncomputable def getAudioIntensity (frame : List ℕ) : ℝ :=
  min (rmsOfFrame frame / 128) 1

/-! ### Web Speech STT client (src/lib/web-speech-stt.ts) -/

/-- JavaScript `String.prototype.trim`: drop whitespace from both ends. -/
def jsTrim (s : String) : String :=
  ⟨((s.data.dropWhile Char.isWhitespace).reverse.dropWhile Char.isWhitespace).reverse⟩

/-- The recognition settings applied by `setupRecognition`
(web-speech-stt.ts:45-58). -/
structure RecognitionConfig where
  continuous : Bool
  interimResults : Bool
  maxAlternatives : ℕ
  lang : String
deriving DecidableEq, Repr

/-- `setupRecognition`: non-continuous recognition, interim results disabled,
five alternatives requested. -/
def setupRecognitionConfig (language : String) : RecognitionConfig :=
  ⟨false, false, 5, language⟩

/-- `recognition.onresult` (web-speech-stt.ts:66-80): concatenate the result
transcripts each followed by a space, trim, and invoke `onTranscript` with
`(text, true)` only when the text is non-empty; otherwise nothing is
delivered. -/
def webSpeechOnResult (transcripts : List String) : Option (String × Bool) :=
  let collected := transcripts.foldl (fun acc t => acc ++ t ++ " ") ""
  let text := jsTrim collected
  if text ≠ "" then some (text, true) else none

end VoiceBot

namespace VoiceBot

/-! ### Helper lemmas -/

/-- `getD` at an in-range index returns an element of the list. -/
theorem getD_mem_of_lt {α : Type} (l : List α) (d : α) (n : ℕ) (h : n < l.length) :
    l.getD n d ∈ l := by
  induction l generalizing n with
  | nil => simp at h
  | cons a t ih =>
    cases n with
    | zero => simp [List.getD]
    | succ m =>
      have hm : m < t.length := by simpa using h
      simp only [List.getD, List.get?_cons_succ] at *
      exact List.mem_cons_of_mem a (ih m hm)

/-- The firing condition at an index inside the original list is unaffected by
appending one more poll. -/
theorem silenceFireCond_append (threshold : ℚ) (duration t0 : ℕ) (l : List (ℕ × ℚ)) (p : ℕ × ℚ)
    (j : ℕ) (hj : j < l.length) :
    silenceFireCond threshold duration t0 (l ++ [p]) j ↔ silenceFireCond threshold duration t0 l j := by
  have htake : (l ++ [p]).take (j + 1) = l.take (j + 1) := List.take_append_of_le_length hj
  have hget : (l ++ [p]).getD j (0, 0) = l.getD j (0, 0) := by
    simp [List.getD, List.getElem?_append_left hj]
  unfold silenceFireCond
  rw [htake, hget]
  constructor
  · rintro ⟨-, h2, h3⟩
    exact ⟨hj, h2, h3⟩
  · rintro ⟨-, h2, h3⟩
    refine ⟨?_, h2, h3⟩
    simp only [List.length_append, List.length_cons, List.length_nil]
    omega

/-- Invariant of the silence-detection loop: the callback has fired exactly
when some poll index satisfies the declarative firing condition, and while it
has not fired the latch and `lastSoundTime` track the poll history exactly. -/
theorem runSilence_invariant (threshold : ℚ) (duration t0 : ℕ) (hd : 0 < duration)
    (polls : List (ℕ × ℚ)) :
    ((runSilence threshold duration t0 polls).fired = true
        ↔ ∃ j, silenceFireCond threshold duration t0 polls j)
    ∧ ((runSilence threshold duration t0 polls).fired = false →
        (runSilence threshold duration t0 polls).hasDetectedSound = speechLatch threshold polls
        ∧ (runSilence threshold duration t0 polls).lastSoundTime = lastLoudTime threshold t0 polls) := by
  induction polls using List.reverseRecOn with
  | nil =>
    refine ⟨⟨fun h => absurd h (by simp [runSilence]), ?_⟩, fun _ => ⟨rfl, rfl⟩⟩
    rintro ⟨j, hj1, -⟩
    simp at hj1
  | append_singleton l p ih =>
    obtain ⟨ihiff, ihtrack⟩ := ih
    have hrun : runSilence threshold duration t0 (l ++ [p])
        = silenceStep threshold duration (runSilence threshold duration t0 l) p := by
      simp [runSilence, List.foldl_append]
    have hlatch : speechLatch threshold (l ++ [p])
        = (speechLatch threshold l || decide (threshold < p.2)) := by
      simp [speechLatch]
    have hlast : lastLoudTime threshold t0 (l ++ [p])
        = if threshold < p.2 then p.1 else lastLoudTime threshold t0 l := by
      simp [lastLoudTime, List.foldl_append]
    have hcond_new : silenceFireCond threshold duration t0 (l ++ [p]) l.length
        ↔ (speechLatch threshold (l ++ [p]) = true
            ∧ duration ≤ p.1 - lastLoudTime threshold t0 (l ++ [p])) := by
      have htake : (l ++ [p]).take (l.length + 1) = l ++ [p] := by simp
      have hget : (l ++ [p]).getD l.length (0, 0) = p := by simp
      unfold silenceFireCond
      rw [htake, hget]
      simp
    rw [hrun]
    set s := runSilence threshold duration t0 l with hs
    by_cases hf : s.fired = true
    · have hstep : silenceStep threshold duration s p = s := by
        simp [silenceStep, hf]
      rw [hstep]
      refine ⟨⟨?_, fun _ => hf⟩, ?_⟩
      · intro _
        obtain ⟨j, hj⟩ := ihiff.mp hf
        exact ⟨j, (silenceFireCond_append threshold duration t0 l p j hj.1).mpr hj⟩
      · intro hff
        exact absurd hf (by simp [hff])
    · have hf' : s.fired = false := by simpa using hf
      obtain ⟨htrack1, htrack2⟩ := ihtrack hf'
      by_cases hloud : threshold < p.2
      · have hstep : silenceStep threshold duration s p = ⟨true, p.1, false⟩ := by
          simp [silenceStep, hf', hloud]
        rw [hstep]
        refine ⟨⟨fun h => absurd h (by simp), ?_⟩, fun _ => ⟨?_, ?_⟩⟩
        · rintro ⟨j, hj⟩
          have hjlen : j < l.length + 1 := by
            have := hj.1
            simpa using this
          rcases Nat.lt_succ_iff_lt_or_eq.mp hjlen with hjl | hje
          · exact absurd (ihiff.mpr ⟨j, (silenceFireCond_append threshold duration t0 l p j hjl).mp hj⟩)
              (by simp [hf'])
          · subst hje
            obtain ⟨-, hdur⟩ := hcond_new.mp hj
            rw [hlast, if_pos hloud] at hdur
            omega
        · simp [hlatch, hloud]
        · simp [hlast, hloud]
      · have hlatch' : speechLatch threshold (l ++ [p]) = speechLatch threshold l := by
          simp [hlatch, hloud]
        have hlast' : lastLoudTime threshold t0 (l ++ [p]) = lastLoudTime threshold t0 l := by
          simp [hlast, hloud]
        by_cases hfire : s.hasDetectedSound = true ∧ duration ≤ p.1 - s.lastSoundTime
        · have hstep : silenceStep threshold duration s p = { s with fired := true } := by
            simp [silenceStep, hf', hloud, hfire]
          rw [hstep]
          refine ⟨⟨fun _ => ?_, fun _ => rfl⟩, ?_⟩
          · refine ⟨l.length, hcond_new.mpr ⟨?_, ?_⟩⟩
            · rw [hlatch', ← htrack1]
              exact hfire.1
            · rw [hlast', ← htrack2]
              exact hfire.2
          · intro hff
            simp at hff
        · have hstep : silenceStep threshold duration s p = s := by
            simp only [silenceStep, hf']
            rw [if_neg (by simp [hf']), if_neg hloud, if_neg hfire]
          rw [hstep]
          refine ⟨⟨fun h => absurd h (by simp [hf']), ?_⟩,
            fun _ => ⟨by rw [hlatch']; exact htrack1, by rw [hlast']; exact htrack2⟩⟩
          rintro ⟨j, hj⟩
          have hjlen : j < l.length + 1 := by
            have := hj.1
            simpa using this
          rcases Nat.lt_succ_iff_lt_or_eq.mp hjlen with hjl | hje
          · exact absurd (ihiff.mpr ⟨j, (silenceFireCond_append threshold duration t0 l p j hjl).mp hj⟩)
              (by simp [hf'])
          · subst hje
            obtain ⟨hl1, hl2⟩ := hcond_new.mp hj
            rw [hlatch'] at hl1
            rw [hlast'] at hl2
            exact (hfire ⟨by rw [htrack1]; exact hl1, by rw [htrack2]; exact hl2⟩).elim

/-! ### Theorems for the transcript handler -/

/-- C1 counterexample: with phase `speaking` and a log ending in an assistant
entry, a final transcript changes both the log and the phase; the handler does
not ignore events while a turn is in flight. -/
theorem c1_no_rejection_counterexample :
    ¬ ((handleTranscriptStep ⟨Phase.speaking, [⟨"user", "hi"⟩, ⟨"assistant", "ok"⟩]⟩ "bye" true).transcripts
          = [⟨"user", "hi"⟩, ⟨"assistant", "ok"⟩]
        ∧ (handleTranscriptStep ⟨Phase.speaking, [⟨"user", "hi"⟩, ⟨"assistant", "ok"⟩]⟩ "bye" true).phase
          = Phase.speaking) := by
  decide

/-- C1 (amended): `handleTranscript` applies no phase guard.  A final
transcript arriving while the phase is `processing` or `speaking` is handled
like any other final transcript: the phase is set to `processing` and the log
is modified (a user entry is appended when the last entry is not a user entry,
and the last entry is replaced when it is a user entry). -/
theorem c1_final_transcript_not_ignored (s : OrchState) (text : String)
    (_hph : s.phase = Phase.processing ∨ s.phase = Phase.speaking) :
    (handleTranscriptStep s text true).phase = Phase.processing
    ∧ ((∀ e, s.transcripts.getLast? = some e → ¬ e.role = "user") →
        (handleTranscriptStep s text true).transcripts = s.transcripts ++ [⟨"user", text⟩])
    ∧ (∀ e, s.transcripts.getLast? = some e → e.role = "user" →
        (handleTranscriptStep s text true).transcripts = s.transcripts.dropLast ++ [⟨"user", text⟩]) := by
  refine ⟨rfl, ?_, ?_⟩
  · intro h
    simp only [handleTranscriptStep, updateTranscripts, if_true]
    match hm : s.transcripts.getLast? with
    | none => simp
    | some e => simp [h e hm]
  · intro e hm he
    simp only [handleTranscriptStep, updateTranscripts, if_true]
    rw [hm]
    simp [he]

/-- C1 witness: the amended statement at a concrete mid-turn state. -/
theorem c1_final_transcript_not_ignored_witness :
    ((⟨Phase.speaking, [⟨"assistant", "ok"⟩]⟩ : OrchState).phase = Phase.processing
        ∨ (⟨Phase.speaking, [⟨"assistant", "ok"⟩]⟩ : OrchState).phase = Phase.speaking)
    ∧ (handleTranscriptStep ⟨Phase.speaking, [⟨"assistant", "ok"⟩]⟩ "bye" true).phase = Phase.processing := by
  refine ⟨Or.inr rfl, ?_⟩
  exact (c1_final_transcript_not_ignored ⟨Phase.speaking, [⟨"assistant", "ok"⟩]⟩ "bye" (Or.inr rfl)).1

/-- C4: for an (interim, interim, final) event sequence for one utterance,
starting from a log not ending in a user entry, the two interim events keep
the phase at `listening`, the final event moves it to `processing` (exactly
once), and the final log extends the initial one by exactly one user entry
carrying the final text — the interim entries having been replaced in place. -/
theorem c4_interim_interim_final (s : OrchState) (t1 t2 t3 : String)
    (h : ∀ e, s.transcripts.getLast? = some e → ¬ e.role = "user") :
    (handleTranscriptStep s t1 false).phase = Phase.listening
    ∧ (handleTranscriptStep (handleTranscriptStep s t1 false) t2 false).phase = Phase.listening
    ∧ (handleTranscriptStep (handleTranscriptStep (handleTranscriptStep s t1 false) t2 false) t3 true).phase
        = Phase.processing
    ∧ (handleTranscriptStep (handleTranscriptStep (handleTranscriptStep s t1 false) t2 false) t3 true).transcripts
        = s.transcripts ++ [⟨"user", t3⟩] := by
  have h1 : (handleTranscriptStep s t1 false).transcripts
      = s.transcripts ++ [⟨"user", t1 ++ " …"⟩] := by
    simp only [handleTranscriptStep, updateTranscripts, if_false]
    match hm : s.transcripts.getLast? with
    | none => simp
    | some e => simp [h e hm]
  have h2 : (handleTranscriptStep (handleTranscriptStep s t1 false) t2 false).transcripts
      = s.transcripts ++ [⟨"user", t2 ++ " …"⟩] := by
    simp only [handleTranscriptStep, updateTranscripts, if_false] at h1 ⊢
    rw [h1, List.getLast?_concat]
    simp [List.dropLast_concat]
  have h3 : (handleTranscriptStep (handleTranscriptStep (handleTranscriptStep s t1 false) t2 false) t3 true).transcripts
      = s.transcripts ++ [⟨"user", t3⟩] := by
    simp only [handleTranscriptStep, updateTranscripts, if_false, if_true] at h2 ⊢
    rw [h2, List.getLast?_concat]
    simp [List.dropLast_concat]
  exact ⟨rfl, rfl, rfl, h3⟩

/-- C4 witness: the statement at a concrete empty initial log. -/
theorem c4_interim_interim_final_witness :
    (∀ e, (⟨Phase.listening, []⟩ : OrchState).transcripts.getLast? = some e → ¬ e.role = "user")
    ∧ (handleTranscriptStep (handleTranscriptStep (handleTranscriptStep ⟨Phase.listening, []⟩ "hel" false) "hello" false) "hello there" true).transcripts
        = [⟨"user", "hello there"⟩] := by
  refine ⟨?_, ?_⟩
  · intro e hm
    cases hm
  · exact (c4_interim_interim_final ⟨Phase.listening, []⟩ "hel" "hello" "hello there"
      (by intro e hm; cases hm)).2.2.2

/-! ### Theorems for reply generation -/

/-- C2: when the provider call fails — the fetch throws or the response is
non-ok — `generateReply` returns a member of the canned-response table for the
detected language of the prompt, and that reply is never the empty string.
(The function is total: no error escapes to the caller.) -/
theorem c2_generate_fallback_nonempty (fetchResult : Except String FetchResponse)
    (prompt : String) (rand : ℚ)
    (_h0 : 0 ≤ rand) (h1 : rand < 1)
    (hfail : ∀ r, fetchResult = Except.ok r → r.ok = false) :
    generateReply fetchResult prompt rand ∈ fallbackTable prompt
    ∧ generateReply fetchResult prompt rand ≠ "" := by
  have hgen : generateReply fetchResult prompt rand = fallbackResponse prompt rand := by
    cases fetchResult with
    | error e => rfl
    | ok r => simp [generateReply, hfail r rfl]
  have hlen : (fallbackTable prompt).length = 7 := by
    unfold fallbackTable
    split <;> rfl
  have hidx : (⌊rand * ((fallbackTable prompt).length : ℚ)⌋).toNat < (fallbackTable prompt).length := by
    rw [hlen]
    have h7 : rand * ((7 : ℕ) : ℚ) < ((7 : ℕ) : ℚ) := by push_cast; nlinarith
    have hfl : ⌊rand * ((7 : ℕ) : ℚ)⌋ < ((7 : ℕ) : ℤ) := Int.floor_lt.mpr (by exact_mod_cast h7)
    omega
  have hmem : fallbackResponse prompt rand ∈ fallbackTable prompt := by
    unfold fallbackResponse
    exact getD_mem_of_lt _ _ _ hidx
  have hall : ∀ x ∈ fallbackTable prompt, x ≠ "" := by
    unfold fallbackTable
    split
    · decide
    · decide
  rw [hgen]
  exact ⟨hmem, hall _ hmem⟩

/-- C2 witness: the failed-fetch case at a concrete prompt and random draw. -/
theorem c2_generate_fallback_nonempty_witness :
    ((0 : ℚ) ≤ 0 ∧ (0 : ℚ) < 1
      ∧ ∀ r : FetchResponse, (Except.error "boom" : Except String FetchResponse) = Except.ok r → r.ok = false)
    ∧ (generateReply (Except.error "boom") "hello" 0 ∈ fallbackTable "hello"
        ∧ generateReply (Except.error "boom") "hello" 0 ≠ "") := by
  refine ⟨⟨le_refl 0, by norm_num, ?_⟩, ?_⟩
  · intro r h
    exact Except.noConfusion h
  · exact c2_generate_fallback_nonempty (Except.error "boom") "hello" 0 (le_refl 0) (by norm_num)
      (fun r h => Except.noConfusion h)

/-- C7: the language detector classifies a string as Chinese exactly when the
characters in the CJK ranges U+4E00–U+9FFF and U+3400–U+4DBF make up strictly
more than 30% of its UTF-16 length, classifies it as English otherwise, and a
Chinese classification selects the Chinese canned-response table and the
zh-CN-YunyangNeural voice. -/
theorem c7_language_detection (s : String) :
    (detectLanguage s = "zh-CN" ↔ (3 : ℚ) / 10 < (chineseCharCount s : ℚ) / (utf16Length s : ℚ))
    ∧ (detectLanguage s = "zh-CN" ∨ detectLanguage s = "en-US")
    ∧ (detectLanguage s = "zh-CN" →
        fallbackTable s = empatheticResponsesCN ∧ voiceNameFor s = "zh-CN-YunyangNeural") := by
  refine ⟨⟨?_, ?_⟩, ?_, ?_⟩
  · intro h
    unfold detectLanguage at h
    by_cases hc : chineseCharCount s ≠ 0 ∧ (3 : ℚ) / 10 < (chineseCharCount s : ℚ) / (utf16Length s : ℚ)
    · exact hc.2
    · rw [if_neg hc] at h
      exact absurd h (by decide)
  · intro h
    have hc0 : chineseCharCount s ≠ 0 := by
      intro h0
      rw [h0] at h
      norm_num at h
    unfold detectLanguage
    rw [if_pos ⟨hc0, h⟩]
  · unfold detectLanguage
    split
    · exact Or.inl rfl
    · exact Or.inr rfl
  · intro h
    constructor
    · simp [fallbackTable, h]
    · simp [voiceNameFor, h]

/-- C7 witness: a concrete all-CJK string is classified Chinese and selects
the Chinese table and voice. -/
theorem c7_language_detection_witness :
    detectLanguage "你好吗" = "zh-CN"
    ∧ fallbackTable "你好吗" = empatheticResponsesCN
    ∧ voiceNameFor "你好吗" = "zh-CN-YunyangNeural" := by
  have hc : chineseCharCount "你好吗" = 3 := by decide
  have hu : utf16Length "你好吗" = 3 := by decide
  have h : detectLanguage "你好吗" = "zh-CN" := by
    apply (c7_language_detection "你好吗").1.mpr
    rw [hc, hu]
    norm_num
  exact ⟨h, (c7_language_detection "你好吗").2.2 h⟩

/-! ### Theorems for the silence detector -/

/-- C3: for any poll sequence, the detector has fired exactly when some poll
index satisfies the declarative condition — a sample among the polls so far
exceeded the threshold and at least the configured duration elapsed since the
last such sample — and it never fires when no sample ever exceeds the
threshold.  Because the equivalence holds for every prefix of the poll
sequence (instantiate `polls` with the prefix), the callback fires at the
first qualifying poll and at no earlier poll. -/
theorem c3_silence_fires_at_first_qualifying_poll (threshold : ℚ) (duration t0 : ℕ)
    (hd : 0 < duration) (polls : List (ℕ × ℚ)) :
    ((runSilence threshold duration t0 polls).fired = true
        ↔ ∃ j, silenceFireCond threshold duration t0 polls j)
    ∧ ((∀ p ∈ polls, p.2 ≤ threshold) → (runSilence threshold duration t0 polls).fired = false) := by
  refine ⟨(runSilence_invariant threshold duration t0 hd polls).1, ?_⟩
  intro hq
  by_contra hft
  have hft' : (runSilence threshold duration t0 polls).fired = true := by
    simpa using hft
  obtain ⟨j, -, hj2, -⟩ := (runSilence_invariant threshold duration t0 hd polls).1.mp hft'
  obtain ⟨p, hp, hpl⟩ := List.any_eq_true.mp hj2
  exact absurd (of_decide_eq_true hpl) (not_lt.mpr (hq p (List.take_subset _ _ hp)))

/-- C3 witness: with threshold 0, duration 3500 ms and polls at 150 ms (loud)
and 3800 ms (quiet), the detector fires at the second poll. -/
theorem c3_silence_fires_at_first_qualifying_poll_witness :
    0 < 3500
    ∧ (runSilence 0 3500 0 [(150, 1), (3800, 0)]).fired = true := by
  refine ⟨by norm_num, ?_⟩
  have h := (c3_silence_fires_at_first_qualifying_poll 0 3500 0 (by norm_num)
    [(150, 1), (3800, 0)]).1
  refine h.mpr ⟨1, ?_, ?_, ?_⟩
  · decide
  · decide
  · decide

/-! ### Theorems for the visual feedback freeze -/

/-- Invariant of the feedback effect: the refs always hold the values computed
at the last listening tick, and while the phase is `listening` the live state
values are the ones computed from the current intensity. -/
theorem runFeedback_invariant (ticks : List (Phase × ℚ)) :
    (∀ i, lastListeningIntensity ticks = some i →
      (runFeedback ticks).lastListeningAudio = i
      ∧ (runFeedback ticks).lastListeningBrightness = 1 + i * 2
      ∧ (runFeedback ticks).lastListeningBloom = 3 / 2 + i * (9 / 2))
    ∧ ((runFeedback ticks).phase = Phase.listening →
      (runFeedback ticks).brightness = 1 + (runFeedback ticks).audioIntensity * 2
      ∧ (runFeedback ticks).bloom = 3 / 2 + (runFeedback ticks).audioIntensity * (9 / 2)) := by
  induction ticks using List.reverseRecOn with
  | nil =>
    refine ⟨?_, ?_⟩
    · intro i hi
      simp [lastListeningIntensity] at hi
    · intro h
      exact absurd h (by decide)
  | append_singleton l t ih =>
    have hrun : runFeedback (l ++ [t]) = feedbackTick (runFeedback l) t.1 t.2 := by
      simp [runFeedback, List.foldl_append]
    by_cases hl : t.1 = Phase.listening
    · have hfilter : lastListeningIntensity (l ++ [t]) = some t.2 := by
        simp [lastListeningIntensity, List.filter_append, hl]
      refine ⟨?_, ?_⟩
      · intro i hi
        rw [hfilter] at hi
        injection hi with hi
        subst hi
        rw [hrun]
        refine ⟨?_, ?_, ?_⟩ <;> simp [feedbackTick, hl]
      · intro _
        rw [hrun]
        refine ⟨?_, ?_⟩ <;> simp [feedbackTick, hl]
    · have hfilter : lastListeningIntensity (l ++ [t]) = lastListeningIntensity l := by
        simp [lastListeningIntensity, List.filter_append, hl]
      refine ⟨?_, ?_⟩
      · intro i hi
        rw [hfilter] at hi
        obtain ⟨h1, h2, h3⟩ := ih.1 i hi
        rw [hrun]
        refine ⟨?_, ?_, ?_⟩ <;> simp [feedbackTick, hl] <;> assumption
      · intro hph
        rw [hrun] at hph
        simp [feedbackTick, hl] at hph

/-- C5: whenever some tick has occurred in the `listening` phase, the feedback
values delivered to the renderer during `processing` or `speaking` equal the
values computed at the last listening tick — frozen, not recomputed — while
during `listening` they are recomputed from the current intensity. -/
theorem c5_feedback_frozen_outside_listening (ticks : List (Phase × ℚ)) (i : ℚ)
    (h : lastListeningIntensity ticks = some i) :
    (((runFeedback ticks).phase = Phase.processing ∨ (runFeedback ticks).phase = Phase.speaking) →
      effectiveBrightness (runFeedback ticks) = 1 + i * 2
      ∧ effectiveBloom (runFeedback ticks) = 3 / 2 + i * (9 / 2)
      ∧ effectiveAudioIntensity (runFeedback ticks) = i)
    ∧ ((runFeedback ticks).phase = Phase.listening →
      effectiveBrightness (runFeedback ticks) = 1 + (runFeedback ticks).audioIntensity * 2
      ∧ effectiveBloom (runFeedback ticks) = 3 / 2 + (runFeedback ticks).audioIntensity * (9 / 2)
      ∧ effectiveAudioIntensity (runFeedback ticks) = (runFeedback ticks).audioIntensity) := by
  obtain ⟨hrefs, hlive⟩ := runFeedback_invariant ticks
  obtain ⟨h1, h2, h3⟩ := hrefs i h
  constructor
  · intro hph
    have hcond : (runFeedback ticks).phase = Phase.speaking
        ∨ (runFeedback ticks).phase = Phase.processing := hph.symm
    refine ⟨?_, ?_, ?_⟩
    · rw [effectiveBrightness, if_pos hcond]
      exact h2
    · rw [effectiveBloom, if_pos hcond]
      exact h3
    · rw [effectiveAudioIntensity, if_pos hcond]
      exact h1
  · intro hph
    have hnot : ¬((runFeedback ticks).phase = Phase.speaking
        ∨ (runFeedback ticks).phase = Phase.processing) := by
      rw [hph]
      decide
    obtain ⟨hb, hbl⟩ := hlive hph
    refine ⟨?_, ?_, ?_⟩
    · rw [effectiveBrightness, if_neg hnot]
      exact hb
    · rw [effectiveBloom, if_neg hnot]
      exact hbl
    · rw [effectiveAudioIntensity, if_neg hnot]

/-- C5 witness: one listening tick at intensity 1 followed by a processing
tick; the delivered brightness stays at the listening-phase value 3. -/
theorem c5_feedback_frozen_outside_listening_witness :
    lastListeningIntensity [(Phase.listening, 1), (Phase.processing, 0)] = some 1
    ∧ effectiveBrightness (runFeedback [(Phase.listening, 1), (Phase.processing, 0)]) = 3 := by
  have h : lastListeningIntensity [(Phase.listening, 1), (Phase.processing, 0)] = some 1 := by
    decide
  refine ⟨h, ?_⟩
  have hfroze := (c5_feedback_frozen_outside_listening
    [(Phase.listening, 1), (Phase.processing, 0)] 1 h).1 (Or.inl (by decide))
  rw [hfroze.1]
  norm_num

/-! ### Theorems for turn sequencing -/

/-- C6: within a successful-generation turn, generation strictly precedes
synthesis, the phase is set to `speaking` before synthesis begins, the phase
is set back to `idle` only after the synthesis action (whether it succeeds or
fails), and the recognition client is disconnected before the reconnect,
which is scheduled with exactly the fixed 500 ms delay. -/
theorem c6_turn_ordering (genResult : Except String String) (ttsResult : Except String Unit)
    (reply : String) (hg : genResult = Except.ok reply) :
    precedesIn (generateAndSpeakTrace genResult ttsResult)
      TurnAction.generate (TurnAction.synthesize (voiceNameFor reply) reply)
    ∧ precedesIn (generateAndSpeakTrace genResult ttsResult)
      (TurnAction.setPhase Phase.speaking) (TurnAction.synthesize (voiceNameFor reply) reply)
    ∧ precedesIn (generateAndSpeakTrace genResult ttsResult)
      (TurnAction.synthesize (voiceNameFor reply) reply) (TurnAction.setPhase Phase.idle)
    ∧ precedesIn (generateAndSpeakTrace genResult ttsResult)
      TurnAction.disconnect (TurnAction.scheduleReconnect 500)
    ∧ precedesIn (generateAndSpeakTrace genResult ttsResult)
      (TurnAction.setPhase Phase.idle) (TurnAction.scheduleReconnect 500)
    ∧ ∀ delay, TurnAction.scheduleReconnect delay ∈ generateAndSpeakTrace genResult ttsResult →
        delay = 500 := by
  subst hg
  cases ttsResult with
  | ok u =>
    refine ⟨⟨0, 3, by omega, rfl, rfl⟩, ⟨2, 3, by omega, rfl, rfl⟩, ⟨3, 4, by omega, rfl, rfl⟩,
      ⟨5, 6, by omega, rfl, rfl⟩, ⟨4, 6, by omega, rfl, rfl⟩, ?_⟩
    intro delay hmem
    simp [generateAndSpeakTrace] at hmem
    exact hmem
  | error e =>
    refine ⟨⟨0, 3, by omega, rfl, rfl⟩, ⟨2, 3, by omega, rfl, rfl⟩, ⟨3, 5, by omega, rfl, rfl⟩,
      ⟨6, 7, by omega, rfl, rfl⟩, ⟨5, 7, by omega, rfl, rfl⟩, ?_⟩
    intro delay hmem
    simp [generateAndSpeakTrace] at hmem
    exact hmem

/-- C6 witness: the ordering facts at a concrete successful turn. -/
theorem c6_turn_ordering_witness :
    (Except.ok "I hear you." : Except String String) = Except.ok "I hear you."
    ∧ precedesIn (generateAndSpeakTrace (Except.ok "I hear you.") (Except.ok ()))
        TurnAction.generate (TurnAction.synthesize (voiceNameFor "I hear you.") "I hear you.") := by
  refine ⟨rfl, ?_⟩
  exact (c6_turn_ordering (Except.ok "I hear you.") (Except.ok ()) "I hear you." rfl).1

/-! ### Theorems for PCM conversion -/

/-- `toInt16` of an integer-valued rational is reduction to signed 16 bits. -/
theorem toInt16_intCast (z : ℤ) :
    toInt16 ((z : ℤ) : ℚ) = if 32768 ≤ z % 65536 then z % 65536 - 65536 else z % 65536 := by
  have hiz : (if ((z : ℚ) < 0) then ⌈((z : ℤ) : ℚ)⌉ else ⌊((z : ℤ) : ℚ)⌋) = z := by
    split
    · exact Int.ceil_intCast z
    · exact Int.floor_intCast z
  simp only [toInt16]
  rw [hiz]

/-- C8: both conversion directions preserve the sample count, and the encoder
saturates exactly at the boundaries: any sample at or below -1 maps to -32768
and any sample at or above 1 maps to 32767. -/
theorem c8_pcm_lengths_and_saturation (xs : List ℤ) (ys : List ℚ) (f g : ℚ)
    (hf : f ≤ -1) (hg : 1 ≤ g) :
    (pcm16ToFloat32 xs).length = xs.length
    ∧ (float32ToPCM16 ys).length = ys.length
    ∧ pcm16Sample f = -32768
    ∧ pcm16Sample g = 32767 := by
  refine ⟨?_, ?_, ?_, ?_⟩
  · unfold pcm16ToFloat32
    exact List.length_map xs _
  · unfold float32ToPCM16
    exact List.length_map ys _
  · have hs : clampUnit f = -1 := by
      unfold clampUnit
      rw [min_eq_right (le_trans hf (by norm_num)), max_eq_left hf]
    simp only [pcm16Sample, hs]
    rw [if_pos (by norm_num : (-1 : ℚ) < 0)]
    have h1 : (-1 : ℚ) * 32768 = ((-32768 : ℤ) : ℚ) := by norm_num
    rw [h1, toInt16_intCast]
    decide
  · have hs : clampUnit g = 1 := by
      unfold clampUnit
      rw [min_eq_left hg]
      norm_num
    simp only [pcm16Sample, hs]
    rw [if_neg (by norm_num : ¬((1 : ℚ) < 0))]
    have h1 : (1 : ℚ) * 32767 = ((32767 : ℤ) : ℚ) := by norm_num
    rw [h1, toInt16_intCast]
    decide

/-- C8 witness: concrete buffers and saturated samples. -/
theorem c8_pcm_lengths_and_saturation_witness :
    ((-2 : ℚ) ≤ -1 ∧ (1 : ℚ) ≤ 2)
    ∧ (pcm16ToFloat32 [16384]).length = 1
    ∧ pcm16Sample (-2) = -32768
    ∧ pcm16Sample 2 = 32767 := by
  have h := c8_pcm_lengths_and_saturation [16384] [0] (-2) 2 (by norm_num) (by norm_num)
  exact ⟨⟨by norm_num, by norm_num⟩, h.1, h.2.2.1, h.2.2.2⟩

/-! ### Theorems for the audio intensity analyzer -/

/-- C9: for a non-empty spectral magnitude frame of byte values,
`getAudioIntensity` returns `min(rms / 128, 1)` where `rms` is the root mean
square of the frame, and this value lies in the closed unit interval. -/
theorem c9_audio_intensity_unit_range (frame : List ℕ) (_hne : frame ≠ [])
    (_hbytes : ∀ b ∈ frame, b ≤ 255) :
    getAudioIntensity frame = min (rmsOfFrame frame / 128) 1
    ∧ 0 ≤ getAudioIntensity frame
    ∧ getAudioIntensity frame ≤ 1 := by
  refine ⟨rfl, ?_, min_le_right _ _⟩
  apply le_min
  · exact div_nonneg (Real.sqrt_nonneg _) (by norm_num)
  · exact zero_le_one

/-- C9 witness: the bounds at a concrete frame. -/
theorem c9_audio_intensity_unit_range_witness :
    (([0] : List ℕ) ≠ [] ∧ ∀ b ∈ ([0] : List ℕ), b ≤ 255)
    ∧ 0 ≤ getAudioIntensity [0] ∧ getAudioIntensity [0] ≤ 1 := by
  refine ⟨⟨by decide, by decide⟩, ?_, ?_⟩
  · exact (c9_audio_intensity_unit_range [0] (by decide) (by decide)).2.1
  · exact (c9_audio_intensity_unit_range [0] (by decide) (by decide)).2.2

/-! ### Theorems for the Web Speech STT client -/

/-- C10: interim results are disabled at recognition setup, and every event
`onresult` delivers to `onTranscript` has `isFinal = true` and non-empty text
(empty collected transcripts are dropped), so the orchestrator's
interim-transcript branch is never taken for a delivered event: handling it
always sets the phase to `processing`. -/
theorem c10_web_speech_final_nonempty (language : String) (transcripts : List String)
    (text : String) (isFinal : Bool)
    (h : webSpeechOnResult transcripts = some (text, isFinal)) :
    (setupRecognitionConfig language).interimResults = false
    ∧ isFinal = true
    ∧ text ≠ ""
    ∧ ∀ s : OrchState, (handleTranscriptStep s text isFinal).phase = Phase.processing := by
  simp only [webSpeechOnResult] at h
  by_cases hne : jsTrim (transcripts.foldl (fun acc t => acc ++ t ++ " ") "") = ""
  · rw [if_neg (by simp [hne])] at h
    exact Option.noConfusion h
  · rw [if_pos hne] at h
    have hp := Option.some.inj h
    have htext : text = jsTrim (transcripts.foldl (fun acc t => acc ++ t ++ " ") "") :=
      (congrArg Prod.fst hp).symm
    have hfin : isFinal = true := (congrArg Prod.snd hp).symm
    subst hfin
    refine ⟨rfl, rfl, ?_, fun s => rfl⟩
    rw [htext]
    exact hne

/-- C10 witness: a concrete delivered event. -/
theorem c10_web_speech_final_nonempty_witness :
    webSpeechOnResult ["hello"] = some ("hello", true)
    ∧ ("hello" : String) ≠ ""
    ∧ ∀ s : OrchState, (handleTranscriptStep s "hello" true).phase = Phase.processing := by
  have h : webSpeechOnResult ["hello"] = some ("hello", true) := by decide
  have hc := c10_web_speech_final_nonempty "en-US" ["hello"] "hello" true h
  exact ⟨h, hc.2.2.1, hc.2.2.2⟩

end VoiceBot
